import Mathlib

/-!
Shallow embedding of the `proxy_tunnel` repository
(`src/proxy_tunnel/proxy_tunnel.py`, `src/proxy_tunnel/killable_thread.py`)
for checking the natural-language specification against the code.

Byte strings (`bytes` in Python) are modelled as `List Nat`; socket I/O is
modelled by explicit event streams (each `recv`/`send` call consumes one
event describing what the kernel did); exceptions are modelled with
`Except`.  Every definition translates the corresponding Python function;
the theorems at the end of the file settle the frozen claims.
-/

/-- Python `bytes`, as a list of byte values. -/
abbrev Bytes := List Nat

/-- `s.encode()` for ASCII text: code points of the characters.
(For the ASCII strings this program manipulates, UTF-8 bytes coincide
with code points.) -/
def strBytes (s : String) : Bytes := s.data.map Char.toNat

/-- The header line separator `b"\r\n"`. -/
def crlf : Bytes := [13, 10]

/-- The header/body separator `b"\r\n\r\n"`. -/
def sep4 : Bytes := [13, 10, 13, 10]

/-- The header-name test `b"Proxy-Authorization:"` used by `startswith`. -/
def paToken : Bytes := strBytes "Proxy-Authorization:"

/-! ### Python `bytes.split(sep, 1)` and `bytes.split(sep)` -/

/-- Split at the first occurrence of `sep`: `some (pre, post)` with
`s = pre ++ sep ++ post` and the occurrence leftmost, `none` when `sep`
does not occur.  Models `s.split(sep, 1)` (which yields a single part,
and so makes two-name unpacking raise `ValueError`, exactly when this is
`none`). -/
def firstSplit (sep : Bytes) : Bytes → Option (Bytes × Bytes)
  | [] => if sep.isPrefixOf ([] : Bytes) then some ([], []) else none
  | c :: rest =>
    if sep.isPrefixOf (c :: rest) then some ([], (c :: rest).drop sep.length)
    else (firstSplit sep rest).map (fun pr => (c :: pr.1, pr.2))

theorem isPrefixOf_nil_of_ne (sep : Bytes) (hsep : sep ≠ []) :
    sep.isPrefixOf ([] : Bytes) = false := by
  cases sep with
  | nil => exact absurd rfl hsep
  | cons a t => rfl

theorem firstSplit_post_length (sep : Bytes) (hsep : sep ≠ []) :
    ∀ s pre post, firstSplit sep s = some (pre, post) → post.length < s.length := by
  intro s
  induction s with
  | nil =>
    intro pre post h
    simp [firstSplit, isPrefixOf_nil_of_ne sep hsep] at h
  | cons c rest ih =>
    intro pre post h
    simp only [firstSplit] at h
    cases hp : sep.isPrefixOf (c :: rest) with
    | true =>
      simp only [hp, if_true] at h
      obtain ⟨h1, h2⟩ := Option.some.inj h |> Prod.mk.inj
      have hlen : 1 ≤ sep.length := by
        cases sep with
        | nil => exact absurd rfl hsep
        | cons a t => simp
      have hd := List.length_drop sep.length (c :: rest)
      subst h2
      simp only [List.length_cons] at *
      omega
    | false =>
      simp only [hp, Bool.false_eq_true, if_false] at h
      rw [Option.map_eq_some'] at h
      obtain ⟨pr, hfs, hpr⟩ := h
      obtain ⟨p1, p2⟩ := pr
      simp only [Prod.mk.injEq] at hpr
      obtain ⟨rfl, rfl⟩ := hpr
      have := ih p1 p2 hfs
      simp only [List.length_cons]
      omega

/-- Fuel-driven worker for `splitSeq`; the fuel only serves termination
and is irrelevant once it exceeds the length of `s`
(`splitSeqGo_fuel_eq`). -/
def splitSeqGo (sep : Bytes) : Nat → Bytes → List Bytes
  | 0, s => [s]
  | fuel + 1, s =>
    match firstSplit sep s with
    | none => [s]
    | some (pre, post) => pre :: splitSeqGo sep fuel post

/-- Split on every occurrence of `sep`; models Python `s.split(sep)` for
non-empty `sep` (never returns the empty list; splitting the empty string
gives one empty part). -/
def splitSeq (sep : Bytes) (s : Bytes) : List Bytes :=
  splitSeqGo sep (s.length + 1) s

theorem splitSeqGo_fuel_eq (sep : Bytes) (hsep : sep ≠ []) :
    ∀ fuel fuel2 s, s.length < fuel → s.length < fuel2 →
      splitSeqGo sep fuel s = splitSeqGo sep fuel2 s := by
  intro fuel
  induction fuel with
  | zero => intro fuel2 s h1 _; omega
  | succ n ih =>
    intro fuel2 s h1 h2
    cases fuel2 with
    | zero => omega
    | succ m =>
      show splitSeqGo sep (n + 1) s = splitSeqGo sep (m + 1) s
      simp only [splitSeqGo]
      cases hfs : firstSplit sep s with
      | none => rfl
      | some pr =>
        obtain ⟨pre, post⟩ := pr
        have hlt := firstSplit_post_length sep hsep s pre post hfs
        dsimp only
        rw [ih m post (by omega) (by omega)]

/-- `sep.join(parts)` from Python. -/
def joinSep (sep : Bytes) : List Bytes → Bytes
  | [] => []
  | [p] => p
  | p :: q :: rest => p ++ sep ++ joinSep sep (q :: rest)

theorem joinSep_cons (sep p : Bytes) (rest : List Bytes) (h : rest ≠ []) :
    joinSep sep (p :: rest) = p ++ sep ++ joinSep sep rest := by
  cases rest with
  | nil => exact absurd rfl h
  | cons q t => rfl

/-! ### Structural facts about `firstSplit` and `splitSeq` -/

theorem firstSplit_eq_append (sep : Bytes) :
    ∀ s pre post, firstSplit sep s = some (pre, post) → s = pre ++ sep ++ post := by
  intro s
  induction s with
  | nil =>
    intro pre post h
    simp only [firstSplit] at h
    cases hp : sep.isPrefixOf ([] : Bytes) with
    | true =>
      simp only [hp, if_true] at h
      obtain ⟨h1, h2⟩ := Option.some.inj h |> Prod.mk.inj
      rw [ List.isPrefixOf_iff_prefix] at hp
      have := List.prefix_nil.mp hp
      subst h1; subst h2
      simp [this]
    | false => simp [hp] at h
  | cons c rest ih =>
    intro pre post h
    simp only [firstSplit] at h
    cases hp : sep.isPrefixOf (c :: rest) with
    | true =>
      simp only [hp, if_true] at h
      obtain ⟨h1, h2⟩ := Option.some.inj h |> Prod.mk.inj
      rw [ List.isPrefixOf_iff_prefix] at hp
      obtain ⟨t, ht⟩ := hp
      subst h1; subst h2
      rw [← ht, List.drop_left]
      simp
    | false =>
      simp only [hp, Bool.false_eq_true, if_false] at h
      rw [Option.map_eq_some'] at h
      obtain ⟨pr, hfs, hpr⟩ := h
      obtain ⟨p1, p2⟩ := pr
      simp only [Prod.mk.injEq] at hpr
      obtain ⟨rfl, rfl⟩ := hpr
      have := ih p1 p2 hfs
      rw [List.cons_append, List.cons_append, ← this]

theorem firstSplit_none_iff (sep : Bytes) (hsep : sep ≠ []) (s : Bytes) :
    firstSplit sep s = none ↔ ¬ sep <:+: s := by
  induction s with
  | nil =>
    simp only [firstSplit, isPrefixOf_nil_of_ne sep hsep, Bool.false_eq_true, if_false,
      true_iff]
    intro hinf
    exact hsep (List.eq_nil_of_infix_nil hinf)
  | cons c rest ih =>
    simp only [firstSplit]
    cases hp : sep.isPrefixOf (c :: rest) with
    | true =>
      simp only [hp, if_true]
      rw [ List.isPrefixOf_iff_prefix] at hp
      constructor
      · intro h; simp at h
      · intro h; exact absurd hp.isInfix h
    | false =>
      simp only [hp, Bool.false_eq_true, if_false]
      have hp2 : ¬ sep <+: (c :: rest) := by
        rw [← List.isPrefixOf_iff_prefix]
        simp [hp]
      cases hfs : firstSplit sep rest with
      | none =>
        simp only [Option.map_none', true_iff]
        rw [List.infix_cons_iff]
        push_neg
        exact ⟨hp2, ih.mp hfs⟩
      | some pr =>
        simp only [Option.map_some']
        have hrest : sep <:+: rest := by
          obtain ⟨p1, p2⟩ := pr
          have := firstSplit_eq_append sep rest p1 p2 hfs
          exact ⟨p1, p2, this.symm⟩
        have hinf : sep <:+: c :: rest := List.infix_cons hrest
        constructor
        · intro h; simp at h
        · intro hc; exact absurd hinf hc

theorem firstSplit_pre_free (sep : Bytes) (hsep : sep ≠ []) :
    ∀ s pre post, firstSplit sep s = some (pre, post) → ¬ sep <:+: pre := by
  intro s
  induction s with
  | nil =>
    intro pre post h
    simp [firstSplit, isPrefixOf_nil_of_ne sep hsep] at h
  | cons c rest ih =>
    intro pre post h
    simp only [firstSplit] at h
    cases hp : sep.isPrefixOf (c :: rest) with
    | true =>
      simp only [hp, if_true] at h
      obtain ⟨h1, h2⟩ := Option.some.inj h |> Prod.mk.inj
      subst h1
      intro hinf
      exact hsep (List.eq_nil_of_infix_nil hinf)
    | false =>
      simp only [hp, Bool.false_eq_true, if_false] at h
      rw [Option.map_eq_some'] at h
      obtain ⟨pr, hfs, hpr⟩ := h
      obtain ⟨p1, p2⟩ := pr
      simp only [Prod.mk.injEq] at hpr
      obtain ⟨rfl, rfl⟩ := hpr
      intro hinf
      rw [List.infix_cons_iff] at hinf
      cases hinf with
      | inl hpref =>
        have hsplit := firstSplit_eq_append sep rest p1 p2 hfs
        have hext : (c :: p1) <+: (c :: rest) := by
          rw [hsplit]
          exact ⟨sep ++ p2, by simp⟩
        have hp2 : ¬ sep <+: (c :: rest) := by
          rw [← List.isPrefixOf_iff_prefix]
          simp [hp]
        exact hp2 (hpref.trans hext)
      | inr hrest => exact ih p1 p2 hfs hrest

theorem firstSplit_prepend (sep : Bytes) :
    ∀ (pre s : Bytes),
      (∀ i, i < pre.length → ¬ sep <+: ((pre ++ s).drop i)) →
      firstSplit sep (pre ++ s) = (firstSplit sep s).map (fun pr => (pre ++ pr.1, pr.2)) := by
  intro pre
  induction pre with
  | nil =>
    intro s _
    simp only [List.nil_append]
    cases hfs : firstSplit sep s <;> simp [hfs]
  | cons c pre ih =>
    intro s h
    have h0 : ¬ sep <+: (c :: (pre ++ s)) := by
      have := h 0 (by simp)
      simpa using this
    show firstSplit sep (c :: (pre ++ s)) = _
    simp only [firstSplit]
    have hb : sep.isPrefixOf (c :: (pre ++ s)) = false := by
      rw [← Bool.not_eq_true, List.isPrefixOf_iff_prefix]
      exact h0
    simp only [hb, Bool.false_eq_true, if_false]
    rw [ih s ?hshift]
    case hshift =>
      intro i hi
      have := h (i + 1) (by simp; omega)
      simpa using this
    cases firstSplit sep s <;> simp

theorem firstSplit_here (sep : Bytes) (hsep : sep ≠ []) (t : Bytes) :
    firstSplit sep (sep ++ t) = some ([], t) := by
  cases hs : sep with
  | nil => exact absurd hs hsep
  | cons a s =>
    show firstSplit (a :: s) (a :: (s ++ t)) = some ([], t)
    simp only [firstSplit]
    have hb : (a :: s).isPrefixOf (a :: (s ++ t)) = true := by
      rw [ List.isPrefixOf_iff_prefix]
      exact ⟨t, by simp⟩
    simp only [hb, if_true, Option.some.injEq, Prod.mk.injEq]
    constructor
    · trivial
    · show List.drop (a :: s).length (a :: (s ++ t)) = t
      have : a :: (s ++ t) = (a :: s) ++ t := by simp
      rw [this, List.drop_left]

/-- No `crlf` occurrence can start inside a `crlf`-free block `p` when the
bytes after `p` do not begin with a line feed. -/
theorem not_crlf_prefix_of_suffix (p d X : Bytes) (hfree : ¬ crlf <:+: p)
    (hsuf : d <:+ p) (hne : d ≠ []) (hX : X.head? = some 13) :
    ¬ crlf <+: (d ++ X) := by
  intro hpre
  obtain ⟨t, ht⟩ := hpre
  match d, hne with
  | [a], _ =>
    simp only [crlf, List.cons_append, List.nil_append, List.singleton_append] at ht
    obtain ⟨rfl, hX'⟩ := List.cons.inj ht
    have : X.head? = some 10 := by rw [← hX']; rfl
    rw [hX] at this
    simp at this
  | a :: b :: d', _ =>
    simp only [crlf, List.cons_append, List.nil_append] at ht
    obtain ⟨rfl, ht2⟩ := List.cons.inj ht
    obtain ⟨rfl, _⟩ := List.cons.inj ht2
    have hpd : crlf <+: (13 :: 10 :: d') := ⟨d', rfl⟩
    exact hfree (List.infix_iff_prefix_suffix.mpr ⟨13 :: 10 :: d', hpd, hsuf⟩)

/-- No `sep4` occurrence can start inside a `crlf`-free block `p` when the
bytes after `p` begin with a carriage return. -/
theorem not_sep4_prefix_of_suffix (p d X : Bytes) (hfree : ¬ crlf <:+: p)
    (hsuf : d <:+ p) (hne : d ≠ []) (hX : X.head? = some 13) :
    ¬ sep4 <+: (d ++ X) := by
  intro hpre
  obtain ⟨t, ht⟩ := hpre
  match d, hne with
  | [a], _ =>
    simp only [sep4, List.cons_append, List.nil_append, List.singleton_append] at ht
    obtain ⟨rfl, hX'⟩ := List.cons.inj ht
    have : X.head? = some 10 := by rw [← hX']; rfl
    rw [hX] at this
    simp at this
  | a :: b :: d', _ =>
    simp only [sep4, List.cons_append, List.nil_append] at ht
    obtain ⟨rfl, ht2⟩ := List.cons.inj ht
    obtain ⟨rfl, _⟩ := List.cons.inj ht2
    have hpd : crlf <+: (13 :: 10 :: d') := ⟨d', rfl⟩
    exact hfree (List.infix_iff_prefix_suffix.mpr ⟨13 :: 10 :: d', hpd, hsuf⟩)

/-- The join of nonempty `crlf`-free parts, followed by bytes starting with
a carriage return, does not begin with `crlf`. -/
theorem not_crlf_prefix_of_join (parts : List Bytes) (X : Bytes)
    (hfree : ∀ q ∈ parts, ¬ crlf <:+: q) (hne : ∀ q ∈ parts, q ≠ [])
    (hparts : parts ≠ []) (hX : X.head? = some 13) :
    ¬ crlf <+: (joinSep crlf parts ++ X) := by
  match parts, hparts with
  | [p], _ =>
    show ¬ crlf <+: (p ++ X)
    exact not_crlf_prefix_of_suffix p p X (hfree p (by simp)) (List.suffix_refl p)
      (hne p (by simp)) hX
  | p :: q :: rest, _ =>
    rw [joinSep_cons crlf p (q :: rest) (by simp), List.append_assoc, List.append_assoc]
    exact not_crlf_prefix_of_suffix p p (crlf ++ (joinSep crlf (q :: rest) ++ X))
      (hfree p (by simp)) (List.suffix_refl p) (hne p (by simp)) rfl

/-- No `sep4` occurrence starts strictly inside the join of nonempty,
`crlf`-free parts, whatever starts with a carriage return afterwards. -/
theorem not_sep4_inside_join (parts : List Bytes) (X : Bytes)
    (hfree : ∀ q ∈ parts, ¬ crlf <:+: q) (hne : ∀ q ∈ parts, q ≠ [])
    (hX : X.head? = some 13) :
    ∀ i, i < (joinSep crlf parts).length → ¬ sep4 <+: ((joinSep crlf parts ++ X).drop i) := by
  induction parts with
  | nil => intro i hi; simp [joinSep] at hi
  | cons p rest ih =>
    intro i hi
    cases rest with
    | nil =>
      show ¬ sep4 <+: ((p ++ X).drop i)
      have hip : i < p.length := by simpa [joinSep] using hi
      rw [List.drop_append_of_le_length (Nat.le_of_lt hip)]
      exact not_sep4_prefix_of_suffix p (p.drop i) X (hfree p (by simp))
        (List.drop_suffix i p)
        (by intro hnil; rw [List.drop_eq_nil_iff] at hnil; omega) hX
    | cons q rest' =>
      have hrne : (q :: rest') ≠ [] := by simp
      rw [joinSep_cons crlf p (q :: rest') hrne] at hi ⊢
      rw [List.length_append, List.length_append] at hi
      rw [show (crlf : Bytes).length = 2 from rfl] at hi
      rcases Nat.lt_or_ge i p.length with hip | hip
      · rw [List.append_assoc, List.append_assoc]
        rw [List.drop_append_of_le_length (Nat.le_of_lt hip)]
        exact not_sep4_prefix_of_suffix p (p.drop i) (crlf ++ (joinSep crlf (q :: rest') ++ X))
          (hfree p (by simp)) (List.drop_suffix i p)
          (by intro hnil; rw [List.drop_eq_nil_iff] at hnil; omega) rfl
      rcases Nat.lt_or_ge i (p.length + 1) with hip1 | hip1
      · -- i = p.length: the occurrence would need crlf right after the separator
        have hieq : i = p.length := by omega
        subst hieq
        rw [List.append_assoc, List.append_assoc]
        rw [List.drop_append_of_le_length (Nat.le_refl p.length), List.drop_length]
        intro hpre
        obtain ⟨t, ht⟩ := hpre
        simp only [sep4, crlf, List.nil_append, List.cons_append] at ht
        obtain ⟨_, ht2⟩ := List.cons.inj ht
        obtain ⟨_, ht3⟩ := List.cons.inj ht2
        have hcr : crlf <+: (joinSep crlf (q :: rest') ++ X) := by
          refine ⟨t, ?_⟩
          simpa [crlf] using ht3
        exact not_crlf_prefix_of_join (q :: rest') X (fun r hr => hfree r (by simp [hr]))
          (fun r hr => hne r (by simp [hr])) hrne hX hcr
      rcases Nat.lt_or_ge i (p.length + 2) with hip2 | hip2
      · -- i = p.length + 1: the remaining bytes start with a line feed
        have hieq : i = p.length + 1 := by omega
        subst hieq
        have harr : (p ++ crlf ++ joinSep crlf (q :: rest')) ++ X
            = p ++ (13 :: (10 :: (joinSep crlf (q :: rest') ++ X))) := by
          simp [crlf]
        rw [harr]
        have hdrop : (p ++ (13 :: (10 :: (joinSep crlf (q :: rest') ++ X)))).drop (p.length + 1)
            = 10 :: (joinSep crlf (q :: rest') ++ X) := by
          have h2 : p ++ (13 :: (10 :: (joinSep crlf (q :: rest') ++ X)))
              = (p ++ [13]) ++ (10 :: (joinSep crlf (q :: rest') ++ X)) := by simp
          rw [h2, show p.length + 1 = (p ++ [13]).length by simp, List.drop_left]
        rw [hdrop]
        intro hpre
        obtain ⟨t, ht⟩ := hpre
        simp [sep4] at ht
      · -- i lands inside the join of the remaining parts
        obtain ⟨j, hj⟩ : ∃ j, i = (p.length + 2) + j := ⟨i - (p.length + 2), by omega⟩
        subst hj
        have harr : (p ++ crlf ++ joinSep crlf (q :: rest')) ++ X
            = (p ++ crlf) ++ (joinSep crlf (q :: rest') ++ X) := by
          simp
        rw [harr]
        have hlen2 : (p ++ crlf).length = p.length + 2 := by simp [crlf]
        rw [show p.length + 2 + j = (p ++ crlf).length + j by rw [hlen2], List.drop_append]
        exact ih (fun r hr => hfree r (by simp [hr])) (fun r hr => hne r (by simp [hr]))
          j (by omega)

/-- Re-parsing: the first `sep4` occurrence in `join ++ sep4 ++ body` is the
explicit one, when the joined parts are nonempty and `crlf`-free. -/
theorem firstSplit_join_sep4 (parts : List Bytes) (body : Bytes)
    (hfree : ∀ q ∈ parts, ¬ crlf <:+: q) (hne : ∀ q ∈ parts, q ≠ [])
    (hparts : parts ≠ []) :
    firstSplit sep4 (joinSep crlf parts ++ (sep4 ++ body))
      = some (joinSep crlf parts, body) := by
  rw [firstSplit_prepend sep4 (joinSep crlf parts) (sep4 ++ body) ?hocc]
  case hocc =>
    intro i hi
    exact not_sep4_inside_join parts (sep4 ++ body) hfree hne rfl i hi
  rw [firstSplit_here sep4 (by decide) body]
  simp

theorem splitSeqGo_succ (sep : Bytes) (fuel : Nat) (s : Bytes) :
    splitSeqGo sep (fuel + 1) s
      = match firstSplit sep s with
        | none => [s]
        | some (pre, post) => pre :: splitSeqGo sep fuel post := rfl

theorem splitSeq_of_none (sep s : Bytes) (hsep : sep ≠ []) (h : firstSplit sep s = none) :
    splitSeq sep s = [s] := by
  show splitSeqGo sep (s.length + 1) s = [s]
  rw [splitSeqGo_succ, h]

theorem splitSeq_of_some (sep s pre post : Bytes) (hsep : sep ≠ [])
    (h : firstSplit sep s = some (pre, post)) :
    splitSeq sep s = pre :: splitSeq sep post := by
  have hlt := firstSplit_post_length sep hsep s pre post h
  show splitSeqGo sep (s.length + 1) s = pre :: splitSeqGo sep (post.length + 1) post
  rw [splitSeqGo_succ, h]
  dsimp only
  rw [splitSeqGo_fuel_eq sep hsep s.length (post.length + 1) post (by omega) (by omega)]

/-- Splitting the join on `crlf` recovers the parts, when every part is
`crlf`-free. -/
theorem splitSeq_join_crlf (parts : List Bytes)
    (hfree : ∀ q ∈ parts, ¬ crlf <:+: q) (hne : ∀ q ∈ parts, q ≠ [])
    (hparts : parts ≠ []) :
    splitSeq crlf (joinSep crlf parts) = parts := by
  induction parts with
  | nil => exact absurd rfl hparts
  | cons p rest ih =>
    cases rest with
    | nil =>
      show splitSeq crlf p = [p]
      exact splitSeq_of_none crlf p (by decide)
        ((firstSplit_none_iff crlf (by decide) p).mpr (hfree p (by simp)))
    | cons q rest' =>
      have hrne : (q :: rest') ≠ [] := by simp
      rw [joinSep_cons crlf p (q :: rest') hrne]
      have hfs : firstSplit crlf (p ++ crlf ++ joinSep crlf (q :: rest'))
          = some (p, joinSep crlf (q :: rest')) := by
        rw [List.append_assoc]
        rw [firstSplit_prepend crlf p (crlf ++ joinSep crlf (q :: rest')) ?hocc]
        case hocc =>
          intro i hi
          rw [List.drop_append_of_le_length (Nat.le_of_lt hi)]
          exact not_crlf_prefix_of_suffix p (p.drop i) (crlf ++ joinSep crlf (q :: rest'))
            (hfree p (by simp)) (List.drop_suffix i p)
            (by intro hnil; rw [List.drop_eq_nil_iff] at hnil; omega) rfl
        rw [firstSplit_here crlf (by decide) (joinSep crlf (q :: rest'))]
        simp
      rw [splitSeq_of_some crlf _ p (joinSep crlf (q :: rest')) (by decide) hfs]
      rw [ih (fun r hr => hfree r (by simp [hr])) (fun r hr => hne r (by simp [hr])) hrne]

/-- Every part produced by `splitSeq` is free of the separator. -/
theorem splitSeq_parts_free (sep : Bytes) (hsep : sep ≠ []) :
    ∀ s, ∀ p ∈ splitSeq sep s, ¬ sep <:+: p := by
  have main : ∀ n s, s.length ≤ n → ∀ p ∈ splitSeq sep s, ¬ sep <:+: p := by
    intro n
    induction n with
    | zero =>
      intro s hlen p hp
      cases hfs : firstSplit sep s with
      | none =>
        rw [splitSeq_of_none sep s hsep hfs] at hp
        simp only [List.mem_singleton] at hp
        subst hp
        exact (firstSplit_none_iff sep hsep _).mp hfs
      | some pr =>
        have := firstSplit_post_length sep hsep s pr.1 pr.2 (by rw [hfs])
        omega
    | succ n ihn =>
      intro s hlen p hp
      cases hfs : firstSplit sep s with
      | none =>
        rw [splitSeq_of_none sep s hsep hfs] at hp
        simp only [List.mem_singleton] at hp
        subst hp
        exact (firstSplit_none_iff sep hsep _).mp hfs
      | some pr =>
        obtain ⟨pre, post⟩ := pr
        rw [splitSeq_of_some sep s pre post hsep hfs] at hp
        simp only [List.mem_cons] at hp
        cases hp with
        | inl hpre =>
          subst hpre
          exact firstSplit_pre_free sep hsep s p post hfs
        | inr hpost =>
          have hlt := firstSplit_post_length sep hsep s pre post hfs
          exact ihn post (by omega) p hpost
  intro s
  exact main s.length s (Nat.le_refl _)

/-! ### `Proxy` (proxy_tunnel.py lines 26-44) -/

/-- The `Proxy` dataclass: host, port, optional credentials, refresh URL. -/
structure Proxy where
  host : String
  port : String
  username : String := ""
  password : String := ""
  refresh_url : String := ""
deriving DecidableEq

/-- `Proxy.__repr__` (lines 34-38).  Python truthiness of a `str` is
non-emptiness. -/
def Proxy.reprStr (p : Proxy) : String :=
  if p.username != "" && p.password != "" then
    "ProxyData(host=" ++ p.host ++ ", port=" ++ p.port ++ ", username=" ++ p.username
      ++ ", password=****)"
  else
    "ProxyData(host=" ++ p.host ++ ", port=" ++ p.port ++ ")"

/-- `Proxy.__str__` (lines 40-44). -/
def Proxy.strStr (p : Proxy) : String :=
  if p.username != "" && p.password != "" then
    p.username ++ ":" ++ p.password ++ "@" ++ p.host ++ ":" ++ p.port
  else
    p.host ++ ":" ++ p.port

/-! ### Base64 and the credential header (proxy_tunnel.py lines 164-168) -/

/-- The base64 alphabet, as used by `base64.b64encode`. -/
def b64Alphabet : List Char :=
  "ABCDEFGHIJKLMNOPQRSTUVWXYZabcdefghijklmnopqrstuvwxyz0123456789+/".data

/-- The base64 digit for a 6-bit value. -/
def b64Char (n : Nat) : Char := b64Alphabet.getD n 'A'

/-- Standard base64 of a byte sequence (`base64.b64encode`), three input
bytes to four output digits, with `=` padding. -/
def base64EncodeBytes : List Nat → List Char
  | b1 :: b2 :: b3 :: rest =>
    b64Char (b1 / 4) :: b64Char ((b1 % 4) * 16 + b2 / 16)
      :: b64Char ((b2 % 16) * 4 + b3 / 64) :: b64Char (b3 % 64)
      :: base64EncodeBytes rest
  | [b1, b2] => [b64Char (b1 / 4), b64Char ((b1 % 4) * 16 + b2 / 16), b64Char ((b2 % 16) * 4), '=']
  | [b1] => [b64Char (b1 / 4), b64Char ((b1 % 4) * 16), '=', '=']
  | [] => []

def base64Encode (bs : List Nat) : String := String.mk (base64EncodeBytes bs)

/-- The 6-bit value of a base64 digit (independent decoding reference,
used to check that `base64EncodeBytes` really is base64). -/
def b64Val (c : Char) : Nat := b64Alphabet.indexOf c

/-- Reference base64 decoder: four digits back to three bytes, honouring
`=` padding. -/
def base64DecodeChars : List Char → List Nat
  | c1 :: c2 :: c3 :: c4 :: rest =>
    if c3 = '=' then [b64Val c1 * 4 + b64Val c2 / 16]
    else if c4 = '=' then
      [b64Val c1 * 4 + b64Val c2 / 16, (b64Val c2 % 16) * 16 + b64Val c3 / 4]
    else
      (b64Val c1 * 4 + b64Val c2 / 16)
        :: ((b64Val c2 % 16) * 16 + b64Val c3 / 4)
        :: ((b64Val c3 % 4) * 64 + b64Val c4)
        :: base64DecodeChars rest
  | _ => []

/-- `ProxyTunnel.__init__` (lines 158-171): the cached credential header,
`None` unless both username and password are non-empty (Python truthiness). -/
def mkProxyAuthorization (remote_proxy : Proxy) : Option String :=
  if remote_proxy.username != "" && remote_proxy.password != "" then
    some ("Basic " ++ base64Encode (strBytes (remote_proxy.username ++ ":" ++ remote_proxy.password)))
  else
    none

/-- The `ProxyTunnel` state set up by `__init__` (connection list and
server socket omitted; they start empty/absent). -/
structure ProxyTunnelState where
  local_proxy : Proxy
  remote_proxy : Proxy
  is_close : Bool
  proxy_authorization : Option String
deriving DecidableEq

def ProxyTunnel.init (local_proxy remote_proxy : Proxy) : ProxyTunnelState :=
  { local_proxy := local_proxy
    remote_proxy := remote_proxy
    is_close := false
    proxy_authorization := mkProxyAuthorization remote_proxy }

/-! ### `Connection` and the per-pump socket model (lines 47-154) -/

/-- What one `sock.recv(chunk_size)` call inside `recv_data` did.
`chunk []` is a zero-byte return, which POSIX produces only when the peer
has closed; `timeout` is a raised `socket.timeout` (the 500 ms window
elapsed); `sockError` is a raised `socket.error`. -/
inductive RecvEvent where
  | chunk (bs : Bytes)
  | timeout
  | sockError
deriving DecidableEq

/-- What one `sock.send(...)` call inside `send_data` did: it accepted
`n` bytes (`0` means the connection is closed), or raised `socket.error`. -/
inductive SendEvent where
  | accepted (n : Nat)
  | sockError
deriving DecidableEq

/-- The mutable state of a `Connection` that `tunnel_data` touches:
the `is_auth` flag and whether each socket is still open
(`close_connection` closes both). -/
structure Connection where
  is_auth : Bool
  localOpen : Bool
  remoteOpen : Bool
deriving DecidableEq

/-- `Connection.close_connection` (lines 106-108). -/
def Connection.close_connection (c : Connection) : Connection :=
  { c with localOpen := false, remoteOpen := false }

/-- The loop body of `Connection.recv_data` (lines 58-68): accumulate
chunks until a zero-byte read breaks the loop or `socket.timeout` is
caught by the `socket_timeout` context manager; `socket.error` escapes. -/
def recvDataGo (acc : Bytes) : List RecvEvent → Except Unit Bytes
  | [] => .ok acc
  | .chunk [] :: _ => .ok acc
  | .chunk (b :: bs) :: rest => recvDataGo (acc ++ (b :: bs)) rest
  | .timeout :: _ => .ok acc
  | .sockError :: _ => .error ()

/-- `Connection.recv_data`: `.ok` is the joined chunks, `.error` a raised
`socket.error`. -/
def recv_data (evs : List RecvEvent) : Except Unit Bytes := recvDataGo [] evs

/-- The loop of `Connection.send_data` (lines 70-81): keep calling
`sock.send` on the unsent remainder until everything is sent, a send
returns `0` (break), or `socket.error` is raised; the `.error` payload
records how many bytes had been sent when the exception was raised. -/
def sendDataGo (dataSize : Nat) (total : Nat) : List SendEvent → Except Nat Nat
  | [] => .ok total
  | .accepted n :: rest =>
    if total < dataSize then
      if min n (dataSize - total) = 0 then .ok total
      else sendDataGo dataSize (total + min n (dataSize - total)) rest
    else .ok total
  | .sockError :: _ =>
    if total < dataSize then .error total else .ok total

/-- `Connection.send_data`: returns `total_send`. -/
def send_data (data : Bytes) (evs : List SendEvent) : Except Nat Nat :=
  sendDataGo data.length 0 evs

/-- The request-line methods checked at line 125. -/
def httpMethods : List Bytes := [strBytes "CONNECT", strBytes "GET", strBytes "POST"]

/-- `any(request.startswith(method) for method in (b"CONNECT", b"GET", b"POST"))`. -/
def startsWithMethod (request : Bytes) : Bool :=
  httpMethods.any (fun m => m.isPrefixOf request)

/-- The replacement loop of `Connection.add_auth_header` (lines 91-97):
rebuild the header list, swapping in `auth_header` for every line that
starts with `Proxy-Authorization:`; the flag records whether any swap
happened. -/
def addAuthLoop (auth_header : Bytes) : List Bytes → List Bytes × Bool
  | [] => ([], false)
  | h :: rest =>
    let (tail, inserted) := addAuthLoop auth_header rest
    if paToken.isPrefixOf h then (auth_header :: tail, true) else (h :: tail, inserted)

/-- The injected header line built at line 89:
`b"Proxy-Authorization: " + proxy_authorization.encode()`. -/
def authHeaderBytes (proxy_authorization : String) : Bytes :=
  strBytes "Proxy-Authorization: " ++ strBytes proxy_authorization

/-- `Connection.add_auth_header` (lines 83-104).  `none` models the
`ValueError` from unpacking `request.split(b"\r\n\r\n", 1)` when the
separator is absent. -/
def add_auth_header (request : Bytes) (proxy_authorization : String) : Option Bytes :=
  match firstSplit sep4 request with
  | none => none
  | some (headers, body) =>
    let headersList := splitSeq crlf headers
    let auth_header := authHeaderBytes proxy_authorization
    let loopOut := addAuthLoop auth_header headersList
    let modifiedHeaders := if loopOut.2 then loopOut.1 else loopOut.1 ++ [auth_header]
    some (joinSep crlf modifiedHeaders ++ sep4 ++ body)

/-- Python truthiness of `proxy_authorization : str | None` at line 125. -/
def pyTruthy : Option String → Bool
  | none => false
  | some s => s != ""

/-- An exception escaping `tunnel_data` (only `socket.error` is caught
inside; the `ValueError` from `add_auth_header` is not). -/
inductive PumpErr where
  | valueError
deriving DecidableEq

/-- The outcome of one `tunnel_data` call: the updated connection state,
the returned "session ended" boolean, and the bytes that reached the
destination socket. -/
structure PumpResult where
  conn : Connection
  ended : Bool
  sent : Bytes
deriving DecidableEq

/-- Lines 136-154 of `tunnel_data`: the `is_auth` gate, then the send. -/
def tunnelDataRest (conn : Connection) (request : Bytes) (sendEvs : List SendEvent) :
    PumpResult :=
  if conn.is_auth = false then
    { conn := conn.close_connection, ended := true, sent := [] }
  else
    match send_data request sendEvs with
    | .error partialSent =>
      { conn := conn.close_connection, ended := true, sent := request.take partialSent }
    | .ok total =>
      if total = 0 then
        { conn := conn.close_connection, ended := true, sent := [] }
      else
        { conn := conn, ended := false, sent := request.take total }

/-- `Connection.tunnel_data` (lines 110-154).  `.error` models an
uncaught exception escaping the method: the carried `Connection` is the
state at the raise point (sockets untouched, flag unchanged). -/
def tunnel_data (conn : Connection) (proxy_authorization : Option String)
    (recvEvs : List RecvEvent) (sendEvs : List SendEvent) :
    Except (PumpErr × Connection) PumpResult :=
  match recv_data recvEvs with
  | .error _ => .ok { conn := conn.close_connection, ended := true, sent := [] }
  | .ok request =>
    if request = [] then
      .ok { conn := conn.close_connection, ended := true, sent := [] }
    else if pyTruthy proxy_authorization && startsWithMethod request then
      match add_auth_header request (proxy_authorization.getD "") with
      | none => .error (.valueError, conn)
      | some request2 => .ok (tunnelDataRest { conn with is_auth := true } request2 sendEvs)
    else
      .ok (tunnelDataRest conn request sendEvs)

/-- One iteration of the `while True` loop of `ProxyTunnel.handle_client`
(lines 236-247): for each select-ready socket, in list order (client
first), run the matching pump; return as soon as a pump reports the
session ended.  Result: connection state, ended flag, bytes forwarded to
the upstream socket, bytes forwarded back to the client. -/
def handleClientStep (proxy_authorization : Option String) (conn : Connection)
    (readLocal readRemote : Bool)
    (evsL : List RecvEvent) (sevsL : List SendEvent)
    (evsR : List RecvEvent) (sevsR : List SendEvent) :
    Except (PumpErr × Connection) (Connection × Bool × Bytes × Bytes) :=
  if readLocal then
    match tunnel_data conn proxy_authorization evsL sevsL with
    | .error e => .error e
    | .ok r =>
      if r.ended then .ok (r.conn, true, r.sent, [])
      else if readRemote then
        match tunnel_data r.conn none evsR sevsR with
        | .error e => .error e
        | .ok r2 => .ok (r2.conn, r2.ended, r.sent, r2.sent)
      else .ok (r.conn, false, r.sent, [])
  else if readRemote then
    match tunnel_data conn none evsR sevsR with
    | .error e => .error e
    | .ok r => .ok (r.conn, r.ended, [], r.sent)
  else
    .ok (conn, false, [], [])

instance (priority := low) exceptDecidableEq {ε α : Type} [DecidableEq ε] [DecidableEq α] :
    DecidableEq (Except ε α) := fun a b =>
  match a, b with
  | .error x, .error y =>
    if h : x = y then isTrue (by rw [h]) else isFalse (fun hc => h (Except.error.inj hc))
  | .ok x, .ok y =>
    if h : x = y then isTrue (by rw [h]) else isFalse (fun hc => h (Except.ok.inj hc))
  | .error _, .ok _ => isFalse (fun hc => Except.noConfusion hc)
  | .ok _, .error _ => isFalse (fun hc => Except.noConfusion hc)

/-! ### The accept loop of `ProxyTunnel.start` (lines 173-214) -/

/-- A `self.connections` entry as the accept loop sees it: its
`thread_id` and whether its worker thread `is_alive()`. -/
structure SessionEntry where
  thread_id : Nat
  alive : Bool
deriving DecidableEq

/-- Workers that finished since the previous iteration flip their
`is_alive()` to false; `deaths` lists their thread ids. -/
def applyDeaths (deaths : List Nat) (conns : List SessionEntry) : List SessionEntry :=
  conns.map (fun c => if c.thread_id ∈ deaths then { c with alive := false } else c)

/-- One iteration of the `while True` loop of `ProxyTunnel.start` after
the `is_close` check (lines 184-214): reap dead entries, skip the
iteration when the table is full (`continue`: no `accept`, no upstream
dial), otherwise accept one client, dial upstream, and append a session
with the lowest free thread id.  The boolean reports whether this
iteration accepted and dialed. -/
def acceptIteration (max_connections : Nat) (deaths : List Nat)
    (conns : List SessionEntry) : List SessionEntry × Bool :=
  let conns2 := applyDeaths deaths conns
  let conns3 := conns2.filter (fun c => c.alive)
  let thread_ids := conns3.map (fun c => c.thread_id)
  if conns3.length = max_connections then (conns3, false)
  else
    match (List.range max_connections).find? (fun i => !(thread_ids.contains i)) with
    | some tid => (conns3 ++ [{ thread_id := tid, alive := true }], true)
    | none => (conns3, true)

/-- Run the accept loop through a sequence of iterations, starting from
the empty table `ProxyTunnel.__init__` sets up. -/
def acceptRun (max_connections : Nat) (inputs : List (List Nat)) : List SessionEntry :=
  inputs.foldl (fun conns deaths => (acceptIteration max_connections deaths conns).1) []

/-! ### `ProxyTunnel.close` and the worker threads (lines 219-228,
killable_thread.py lines 11-41) -/

/-- The two thread classes in the repository.  `proxy_tunnel.py` line 8
imports `Thread` from `threading` and line 209 constructs workers with
it; `KillableThread` (killable_thread.py) additionally has a `kill`
method. -/
inductive WorkerThread where
  | plain (alive : Bool)
  | killable (alive killed : Bool)
deriving DecidableEq

/-- Whether the object has a `kill` attribute (only `KillableThread`
defines one; `threading.Thread` does not). -/
def hasKillMethod : WorkerThread → Bool
  | .plain _ => false
  | .killable _ _ => true

/-- `thread.is_alive()`. -/
def threadAlive : WorkerThread → Bool
  | .plain a => a
  | .killable a _ => a

/-- The worker thread `ProxyTunnel.start` creates at line 209:
`Thread(target=self.handle_client, args=(connection,))` — the plain
`threading.Thread`, not `KillableThread`. -/
def spawnedWorkerThread (alive : Bool) : WorkerThread := .plain alive

/-- A `self.connections` entry as `ProxyTunnel.close` sees it. -/
structure CloseEntry where
  localOpen : Bool
  remoteOpen : Bool
  thread : WorkerThread
deriving DecidableEq

/-- A Python exception raised by `close`. -/
inductive PyError where
  | attributeError
deriving DecidableEq

/-- The loop of `ProxyTunnel.close` (lines 220-226): close both sockets
of each connection, then, if its thread is alive, call `thread.kill()`
and `thread.join()`.  Looking up `kill` on an object without that
attribute raises `AttributeError`, which propagates out of `close`
before `self.server_socket.close()` at line 228 is reached; `.ok`
returns the closed-socket entries after the listener is closed too. -/
def tunnelClose : List CloseEntry → Except PyError (List CloseEntry)
  | [] => .ok []
  | c :: rest =>
    let c2 : CloseEntry := { c with localOpen := false, remoteOpen := false }
    if threadAlive c2.thread then
      if hasKillMethod c2.thread then
        match tunnelClose rest with
        | .error e => .error e
        | .ok done => .ok (c2 :: done)
      else .error .attributeError
    else
      match tunnelClose rest with
      | .error e => .error e
      | .ok done => .ok (c2 :: done)

/-! ### Supporting lemmas about the pump -/

theorem recvDataGo_ok_prefix :
    ∀ evs acc out, recvDataGo acc evs = .ok out → acc <+: out := by
  intro evs
  induction evs with
  | nil =>
    intro acc out h
    simp only [recvDataGo] at h
    obtain rfl := Except.ok.inj h
    exact List.prefix_refl _
  | cons e rest ih =>
    intro acc out h
    cases e with
    | chunk bs =>
      cases bs with
      | nil =>
        simp only [recvDataGo] at h
        obtain rfl := Except.ok.inj h
        exact List.prefix_refl _
      | cons b bs2 =>
        simp only [recvDataGo] at h
        have := ih (acc ++ (b :: bs2)) out h
        exact (List.prefix_append acc (b :: bs2)).trans this
    | timeout =>
      simp only [recvDataGo] at h
      obtain rfl := Except.ok.inj h
      exact List.prefix_refl _
    | sockError => simp [recvDataGo] at h

theorem pyTruthy_some (s : String) (h : s ≠ "") : pyTruthy (some s) = true := by
  simp [pyTruthy, h]

/-- C1: on the client→upstream direction with credentials configured
(`proxy_authorization` non-`None`), a pump whose received request leaves
`is_auth` false after the injection step (line 125 matched no method, so
no header was injected) hits the gate at lines 136-139: both sockets are
closed and the pump returns `True` ("session ended") without any bytes
having been sent to the upstream socket. -/
theorem c1_policy_gate (conn : Connection) (pa : String) (evs : List RecvEvent)
    (sevs : List SendEvent) (data : Bytes)
    (hauth : conn.is_auth = false) (hpa : pa ≠ "")
    (hrecv : recv_data evs = .ok data) (hne : data ≠ [])
    (hmethod : startsWithMethod data = false) :
    tunnel_data conn (some pa) evs sevs
      = .ok { conn := conn.close_connection, ended := true, sent := [] } := by
  unfold tunnel_data
  rw [hrecv]
  simp only [if_neg hne, pyTruthy_some pa hpa, hmethod, Bool.and_false, Bool.false_eq_true,
    if_false]
  unfold tunnelDataRest
  rw [if_pos hauth]

/-- C9: the `is_auth` gate is directional-blind: any pump run while the
flag is false after the injection step — in particular every
upstream→client pump before the first injected client request, and every
pump at all when no credentials are configured (`proxy_authorization`
`None`) — closes both sockets, ends the session, and forwards nothing;
consequently `handle_client` ends such a session at its very first pump,
whichever direction select reported ready. -/
theorem c9_gate_blind (conn : Connection) (hauth : conn.is_auth = false) :
    (∀ evs sevs, tunnel_data conn none evs sevs
        = .ok { conn := conn.close_connection, ended := true, sent := [] }) ∧
    (∀ pa evs sevs data, recv_data evs = .ok data →
        (pyTruthy pa && startsWithMethod data) = false →
        tunnel_data conn pa evs sevs
          = .ok { conn := conn.close_connection, ended := true, sent := [] }) ∧
    (∀ rl rr evsL sevsL evsR sevsR, (rl || rr) = true →
        handleClientStep none conn rl rr evsL sevsL evsR sevsR
          = .ok (conn.close_connection, true, [], [])) := by
  have hgen : ∀ pa evs sevs data, recv_data evs = .ok data →
      (pyTruthy pa && startsWithMethod data) = false →
      tunnel_data conn pa evs sevs
        = .ok { conn := conn.close_connection, ended := true, sent := [] } := by
    intro pa evs sevs data hrecv hcond
    unfold tunnel_data
    rw [hrecv]
    by_cases hne : data = []
    · subst hne
      simp
    · simp only [if_neg hne, hcond, Bool.false_eq_true, if_false]
      unfold tunnelDataRest
      rw [if_pos hauth]
  have hnone : ∀ evs sevs, tunnel_data conn none evs sevs
      = .ok { conn := conn.close_connection, ended := true, sent := [] } := by
    intro evs sevs
    cases hrecv : recv_data evs with
    | error e =>
      unfold tunnel_data
      rw [hrecv]
    | ok data =>
      exact hgen none evs sevs data hrecv (by simp [pyTruthy])
  refine ⟨hnone, hgen, ?_⟩
  intro rl rr evsL sevsL evsR sevsR hready
  cases rl with
  | true =>
    simp [handleClientStep, hnone]
  | false =>
    cases rr with
    | true => simp [handleClientStep, hnone]
    | false => simp at hready

/-- C10: with credentials configured, a client buffer that starts with
CONNECT/GET/POST but contains no `\r\n\r\n` separator makes the two-name
unpacking in `add_auth_header` (line 85) raise `ValueError`; `tunnel_data`
catches only `socket.error`, so the exception escapes the pump — no
"session ended" return, and `close_connection` is never reached (the
carried connection state is unchanged, sockets still open). -/
theorem c10_missing_separator_raises (conn : Connection) (pa : String)
    (evs : List RecvEvent) (sevs : List SendEvent) (data : Bytes)
    (hpa : pa ≠ "") (hrecv : recv_data evs = .ok data)
    (hmethod : startsWithMethod data = true) (hnosep : ¬ sep4 <:+: data) :
    tunnel_data conn (some pa) evs sevs = .error (.valueError, conn) := by
  have hne : data ≠ [] := by
    intro h
    subst h
    exact absurd hmethod (by decide)
  have hno : firstSplit sep4 data = none :=
    (firstSplit_none_iff sep4 (by decide) data).mpr hnosep
  unfold tunnel_data
  rw [hrecv]
  simp only [if_neg hne, pyTruthy_some pa hpa, hmethod, Bool.and_self, if_true]
  unfold add_auth_header
  rw [hno]

/-- C5: when `handle_client` pumps a socket that `select` reported ready,
the first `recv` returns immediately — a chunk (`chunk bs`, with
`chunk []` exactly the POSIX zero-byte read of a closed peer).  Then
(i) the accumulated buffer is empty iff that first read was the
zero-byte read of peer closure, (ii) on peer closure the pump closes
both sockets and ends the session, and (iii) an idle window that merely
elapses after data arrived (a `socket.timeout` mid-accumulation) just
terminates accumulation with the data received — it does not produce the
empty buffer, so it cannot trigger the zero-byte disconnect branch. -/
theorem c5_zero_byte_closure :
    (∀ bs rest, recv_data (RecvEvent.chunk bs :: rest) = .ok ([] : Bytes) ↔ bs = []) ∧
    (∀ conn pa rest sevs,
       tunnel_data conn pa (RecvEvent.chunk [] :: rest) sevs
         = .ok { conn := conn.close_connection, ended := true, sent := [] }) ∧
    (∀ bs rest, bs ≠ [] →
       recv_data (RecvEvent.chunk bs :: RecvEvent.timeout :: rest) = .ok bs) := by
  refine ⟨?_, ?_, ?_⟩
  · intro bs rest
    constructor
    · intro h
      by_contra hbs
      cases bs with
      | nil => exact hbs rfl
      | cons b bs2 =>
        have hpre : ([] : Bytes) ++ (b :: bs2) <+: ([] : Bytes) := by
          have : recvDataGo (([] : Bytes) ++ (b :: bs2)) rest = .ok [] := by
            simpa [recv_data, recvDataGo] using h
          exact recvDataGo_ok_prefix rest _ [] this
        simp at hpre
    · intro h
      subst h
      rfl
  · intro conn pa rest sevs
    have hrecv : recv_data (RecvEvent.chunk [] :: rest) = .ok ([] : Bytes) := rfl
    unfold tunnel_data
    rw [hrecv]
    simp
  · intro bs rest hbs
    cases bs with
    | nil => exact absurd rfl hbs
    | cons b bs2 => rfl

/-- C4 counterexample: `tunnel_data` never searches the buffer for
"407 Proxy Authentication Required" (the string appears in the source
only inside a log message at line 137).  Concretely: a first client pump
injects the header and authenticates the session; the next
upstream→client pump receives a buffer containing the 407 literal, yet
returns `False` (session continues), leaves both sockets open, and
forwards the whole buffer to the client. -/
theorem c4_counterexample :
    tunnel_data { is_auth := false, localOpen := true, remoteOpen := true }
        (some "Basic dTpw")
        [RecvEvent.chunk (strBytes "GET / HTTP/1.1\r\nHost: x\r\n\r\n"), RecvEvent.timeout]
        [SendEvent.accepted 1000]
      = .ok { conn := { is_auth := true, localOpen := true, remoteOpen := true },
              ended := false,
              sent := strBytes "GET / HTTP/1.1\r\nHost: x\r\nProxy-Authorization: Basic dTpw\r\n\r\n" }
    ∧ strBytes "407 Proxy Authentication Required"
        <:+: strBytes "HTTP/1.1 407 Proxy Authentication Required\r\n\r\n"
    ∧ tunnel_data { is_auth := true, localOpen := true, remoteOpen := true } none
        [RecvEvent.chunk (strBytes "HTTP/1.1 407 Proxy Authentication Required\r\n\r\n"),
         RecvEvent.timeout]
        [SendEvent.accepted 1000]
      = .ok { conn := { is_auth := true, localOpen := true, remoteOpen := true },
              ended := false,
              sent := strBytes "HTTP/1.1 407 Proxy Authentication Required\r\n\r\n" } := by
  refine ⟨by decide, by decide, by decide⟩

/-- C4 amended: no pump inspects the payload for the 407 literal.  Once
the session is authenticated, an upstream→client pump whose receive
succeeds and whose send drains fully forwards the buffer unchanged and
reports the session as still alive, even when the buffer contains
"407 Proxy Authentication Required"; before authentication every pump
ends the session whatever that buffer holds (the gate, not a 407 check). -/
theorem c4_no_407_check (conn : Connection) (evs : List RecvEvent)
    (sevs : List SendEvent) (data : Bytes)
    (hauth : conn.is_auth = true)
    (hrecv : recv_data evs = .ok data) (hne : data ≠ [])
    (h407 : strBytes "407 Proxy Authentication Required" <:+: data)
    (hsend : send_data data sevs = .ok data.length) :
    tunnel_data conn none evs sevs = .ok { conn := conn, ended := false, sent := data } := by
  unfold tunnel_data
  rw [hrecv]
  simp only [if_neg hne, pyTruthy, Bool.false_and, Bool.false_eq_true, if_false]
  unfold tunnelDataRest
  rw [if_neg (by rw [hauth]; simp), hsend]
  dsimp only
  have hlen : data.length ≠ 0 := by
    intro h
    exact hne (List.length_eq_zero.mp h)
  rw [if_neg hlen, List.take_length]

theorem addAuthLoop_eq (auth : Bytes) : ∀ hs : List Bytes,
    addAuthLoop auth hs
      = (hs.map (fun h => if paToken.isPrefixOf h then auth else h),
         hs.any (fun h => paToken.isPrefixOf h)) := by
  intro hs
  induction hs with
  | nil => rfl
  | cons h rest ih =>
    simp only [addAuthLoop, ih, List.map_cons, List.any_cons]
    cases hp : paToken.isPrefixOf h <;> simp [hp]

theorem map_replace_of_none (auth : Bytes) (hs : List Bytes)
    (h : hs.any (fun x => paToken.isPrefixOf x) = false) :
    hs.map (fun x => if paToken.isPrefixOf x then auth else x) = hs := by
  rw [List.any_eq_false] at h
  have hcong : ∀ x ∈ hs, (if paToken.isPrefixOf x then auth else x) = id x := by
    intro x hx
    have := h x hx
    simp only [Bool.not_eq_true] at this
    simp [this]
  rw [List.map_congr_left hcong, List.map_id]

/-- C2: for a request containing the `\r\n\r\n` separator (its first
occurrence splitting it into header block `hb` and body),
`add_auth_header` (i) replaces every `Proxy-Authorization` line in place
when one is present, touching nothing else, and (ii) otherwise appends
the injected line at the end of the header block, immediately before the
separator; (iii) in the append case, re-parsing the result the same way
the code parses requests shows the header lines are exactly the original
line plus the injected one (count N+1), with the request line first and
the body byte-identical. -/
theorem c2_add_auth_header (request : Bytes) (auth : String) (hb body : Bytes)
    (hfs : firstSplit sep4 request = some (hb, body)) :
    ((splitSeq crlf hb).any (fun h => paToken.isPrefixOf h) = true →
      add_auth_header request auth
        = some (joinSep crlf ((splitSeq crlf hb).map
            (fun h => if paToken.isPrefixOf h then authHeaderBytes auth else h))
            ++ sep4 ++ body)) ∧
    ((splitSeq crlf hb).any (fun h => paToken.isPrefixOf h) = false →
      add_auth_header request auth
        = some (joinSep crlf (splitSeq crlf hb ++ [authHeaderBytes auth]) ++ sep4 ++ body)) ∧
    (∀ line hdrs, splitSeq crlf hb = line :: hdrs →
      (splitSeq crlf hb).any (fun h => paToken.isPrefixOf h) = false →
      (∀ p ∈ splitSeq crlf hb, p ≠ []) →
      ¬ crlf <:+: authHeaderBytes auth →
      authHeaderBytes auth ≠ [] →
      ∀ result, add_auth_header request auth = some result →
        firstSplit sep4 result
          = some (joinSep crlf (line :: (hdrs ++ [authHeaderBytes auth])), body) ∧
        splitSeq crlf (joinSep crlf (line :: (hdrs ++ [authHeaderBytes auth])))
          = line :: (hdrs ++ [authHeaderBytes auth]) ∧
        (hdrs ++ [authHeaderBytes auth]).length = hdrs.length + 1) := by
  have hA : (splitSeq crlf hb).any (fun h => paToken.isPrefixOf h) = true →
      add_auth_header request auth
        = some (joinSep crlf ((splitSeq crlf hb).map
            (fun h => if paToken.isPrefixOf h then authHeaderBytes auth else h))
            ++ sep4 ++ body) := by
    intro hany
    unfold add_auth_header
    rw [hfs]
    dsimp only
    rw [addAuthLoop_eq]
    dsimp only
    rw [hany]
    simp
  have hB : (splitSeq crlf hb).any (fun h => paToken.isPrefixOf h) = false →
      add_auth_header request auth
        = some (joinSep crlf (splitSeq crlf hb ++ [authHeaderBytes auth]) ++ sep4 ++ body) := by
    intro hany
    unfold add_auth_header
    rw [hfs]
    dsimp only
    rw [addAuthLoop_eq]
    dsimp only
    rw [hany]
    simp only [Bool.false_eq_true, if_false]
    rw [map_replace_of_none (authHeaderBytes auth) (splitSeq crlf hb) hany]
  refine ⟨hA, hB, ?_⟩
  intro line hdrs hsplit hany hne hAfree hAne result hres
  have hb_free : ∀ p ∈ splitSeq crlf hb, ¬ crlf <:+: p :=
    fun p hp => splitSeq_parts_free crlf (by decide) hb p hp
  have hresult : result
      = joinSep crlf (line :: (hdrs ++ [authHeaderBytes auth])) ++ sep4 ++ body := by
    have := hB hany
    rw [hres] at this
    have h2 := Option.some.inj this
    rw [h2, hsplit, List.cons_append]
  have hfree2 : ∀ q ∈ line :: (hdrs ++ [authHeaderBytes auth]), ¬ crlf <:+: q := by
    intro q hq
    rw [← List.cons_append] at hq
    rw [List.mem_append] at hq
    cases hq with
    | inl hq2 => exact hb_free q (by rw [hsplit]; exact hq2)
    | inr hq2 =>
      rw [List.mem_singleton] at hq2
      subst hq2
      exact hAfree
  have hne2 : ∀ q ∈ line :: (hdrs ++ [authHeaderBytes auth]), q ≠ [] := by
    intro q hq
    rw [← List.cons_append] at hq
    rw [List.mem_append] at hq
    cases hq with
    | inl hq2 => exact hne q (by rw [hsplit]; exact hq2)
    | inr hq2 =>
      rw [List.mem_singleton] at hq2
      subst hq2
      exact hAne
  refine ⟨?_, ?_, by simp⟩
  · rw [hresult, List.append_assoc]
    exact firstSplit_join_sep4 (line :: (hdrs ++ [authHeaderBytes auth])) body hfree2 hne2
      (by simp)
  · exact splitSeq_join_crlf (line :: (hdrs ++ [authHeaderBytes auth])) hfree2 hne2 (by simp)

theorem b64Val_b64Char : ∀ v, v < 64 → b64Val (b64Char v) = v := by decide

theorem b64Char_ne_eq : ∀ v, v < 64 → b64Char v ≠ '=' := by decide

/-- Decoding undoes `base64EncodeBytes` on genuine byte values: the
encoder really is base64. -/
theorem base64_roundtrip :
    ∀ bs : List Nat, (∀ b ∈ bs, b < 256) →
      base64DecodeChars (base64EncodeBytes bs) = bs := by
  have main : ∀ n bs, List.length bs ≤ n → (∀ b ∈ bs, b < 256) →
      base64DecodeChars (base64EncodeBytes bs) = bs := by
    intro n
    induction n with
    | zero =>
      intro bs hlen _
      have : bs = [] := List.length_eq_zero.mp (Nat.le_zero.mp hlen)
      subst this
      rfl
    | succ n ih =>
      intro bs hlen hlt
      match bs with
      | [] => rfl
      | [b1] =>
        have h1 : b1 < 256 := hlt b1 (by simp)
        show base64DecodeChars
            [b64Char (b1 / 4), b64Char ((b1 % 4) * 16), '=', '='] = [b1]
        rw [base64DecodeChars, if_pos rfl]
        rw [b64Val_b64Char (b1 / 4) (by omega), b64Val_b64Char ((b1 % 4) * 16) (by omega)]
        simp only [List.cons.injEq, and_true]
        omega
      | [b1, b2] =>
        have h1 : b1 < 256 := hlt b1 (by simp)
        have h2 : b2 < 256 := hlt b2 (by simp)
        show base64DecodeChars
            [b64Char (b1 / 4), b64Char ((b1 % 4) * 16 + b2 / 16), b64Char ((b2 % 16) * 4), '=']
          = [b1, b2]
        rw [base64DecodeChars]
        rw [if_neg (b64Char_ne_eq ((b2 % 16) * 4) (by omega)), if_pos rfl]
        rw [b64Val_b64Char (b1 / 4) (by omega),
          b64Val_b64Char ((b1 % 4) * 16 + b2 / 16) (by omega),
          b64Val_b64Char ((b2 % 16) * 4) (by omega)]
        simp only [List.cons.injEq, and_true]
        constructor
        · omega
        · omega
      | b1 :: b2 :: b3 :: rest =>
        have h1 : b1 < 256 := hlt b1 (by simp)
        have h2 : b2 < 256 := hlt b2 (by simp)
        have h3 : b3 < 256 := hlt b3 (by simp)
        show base64DecodeChars
            (b64Char (b1 / 4) :: b64Char ((b1 % 4) * 16 + b2 / 16)
              :: b64Char ((b2 % 16) * 4 + b3 / 64) :: b64Char (b3 % 64)
              :: base64EncodeBytes rest)
          = b1 :: b2 :: b3 :: rest
        rw [base64DecodeChars]
        rw [if_neg (b64Char_ne_eq ((b2 % 16) * 4 + b3 / 64) (by omega)),
          if_neg (b64Char_ne_eq (b3 % 64) (by omega))]
        rw [b64Val_b64Char (b1 / 4) (by omega),
          b64Val_b64Char ((b1 % 4) * 16 + b2 / 16) (by omega),
          b64Val_b64Char ((b2 % 16) * 4 + b3 / 64) (by omega),
          b64Val_b64Char (b3 % 64) (by omega)]
        have hrest := ih rest (by simp at hlen; omega)
          (fun b hb => hlt b (by simp [hb]))
        rw [hrest]
        simp only [List.cons.injEq, and_true]
        refine ⟨by omega, by omega, by omega⟩
  intro bs
  exact main bs.length bs (Nat.le_refl _)

/-- C3: the credential header cached by `ProxyTunnel.__init__` is absent
exactly when username or password is empty (Python truthiness at line
165), and otherwise equals `"Basic "` followed by the base64 encoding of
`"username:password"` — genuinely base64, witnessed by the reference
decoder recovering the credential bytes.  The field is a pure function
of the remote proxy computed at construction; no operation of the
embedding writes it afterwards. -/
theorem c3_proxy_authorization (local_proxy remote_proxy : Proxy)
    (hascii : ∀ c ∈ (remote_proxy.username ++ ":" ++ remote_proxy.password).data,
      c.toNat < 256) :
    ((ProxyTunnel.init local_proxy remote_proxy).proxy_authorization = none ↔
      (remote_proxy.username = "" ∨ remote_proxy.password = "")) ∧
    (remote_proxy.username ≠ "" → remote_proxy.password ≠ "" →
      (ProxyTunnel.init local_proxy remote_proxy).proxy_authorization
        = some ("Basic "
            ++ base64Encode (strBytes (remote_proxy.username ++ ":" ++ remote_proxy.password)))
      ∧ base64DecodeChars (base64EncodeBytes
            (strBytes (remote_proxy.username ++ ":" ++ remote_proxy.password)))
          = strBytes (remote_proxy.username ++ ":" ++ remote_proxy.password)) := by
  constructor
  · show mkProxyAuthorization remote_proxy = none ↔ _
    unfold mkProxyAuthorization
    cases hu : remote_proxy.username == "" with
    | true =>
      simp only [bne, hu]
      simp [eq_of_beq hu]
    | false =>
      cases hp : remote_proxy.password == "" with
      | true =>
        simp only [bne, hu, hp]
        simp [eq_of_beq hp]
      | false =>
        simp only [bne, hu, hp]
        have hu2 : remote_proxy.username ≠ "" := by
          intro h; rw [h] at hu; simp at hu
        have hp2 : remote_proxy.password ≠ "" := by
          intro h; rw [h] at hp; simp at hp
        simp [hu2, hp2]
  · intro hu hp
    constructor
    · show mkProxyAuthorization remote_proxy = _
      unfold mkProxyAuthorization
      rw [if_pos (by simp [hu, hp])]
    · exact base64_roundtrip _ (by
        intro b hb
        unfold strBytes at hb
        rw [List.mem_map] at hb
        obtain ⟨c, hc, rfl⟩ := hb
        exact hascii c hc)

/-- C6: the session table of the accept loop (i) never exceeds
`max_connections` entries at any iteration boundary of a run started
from the empty table; (ii) when the reaped table is full the iteration
performs no accept and no upstream dial and admits nothing
(`continue` at line 190); and (iii) from a full table whose workers are
all still alive nothing happens at all — a new session can only be
admitted after some worker has finished and its entry was reaped. -/
theorem c6_session_table (max_connections : Nat) :
    (∀ inputs, (acceptRun max_connections inputs).length ≤ max_connections) ∧
    (∀ deaths conns,
       ((applyDeaths deaths conns).filter (fun c => c.alive)).length = max_connections →
       acceptIteration max_connections deaths conns
         = ((applyDeaths deaths conns).filter (fun c => c.alive), false)) ∧
    (∀ deaths conns, conns.length = max_connections →
       (∀ c ∈ conns, c.alive = true ∧ c.thread_id ∉ deaths) →
       acceptIteration max_connections deaths conns = (conns, false)) := by
  have hstep : ∀ deaths conns, conns.length ≤ max_connections →
      (acceptIteration max_connections deaths conns).1.length ≤ max_connections := by
    intro deaths conns h
    have hlen3 : ((applyDeaths deaths conns).filter (fun c => c.alive)).length
        ≤ conns.length := by
      calc ((applyDeaths deaths conns).filter (fun c => c.alive)).length
          ≤ (applyDeaths deaths conns).length := List.length_filter_le _ _
        _ = conns.length := by unfold applyDeaths; rw [List.length_map]
    unfold acceptIteration
    dsimp only
    split
    · rename_i hfull
      dsimp only
      omega
    · rename_i hnotfull
      split
      · rename_i tid hfind
        dsimp only
        simp only [List.length_append, List.length_cons, List.length_nil]
        omega
      · dsimp only
        omega
  refine ⟨?_, ?_, ?_⟩
  · intro inputs
    have hrun : ∀ (ins : List (List Nat)) (conns : List SessionEntry),
        conns.length ≤ max_connections →
        (ins.foldl
          (fun cs deaths => (acceptIteration max_connections deaths cs).1) conns).length
          ≤ max_connections := by
      intro ins
      induction ins with
      | nil => intro conns h; simpa using h
      | cons d rest ih =>
        intro conns h
        exact ih _ (hstep d conns h)
    exact hrun inputs [] (by simp)
  · intro deaths conns hfull
    unfold acceptIteration
    dsimp only
    rw [if_pos hfull]
  · intro deaths conns hlen halive
    have hmap : applyDeaths deaths conns = conns := by
      unfold applyDeaths
      have : ∀ c ∈ conns,
          (if c.thread_id ∈ deaths then { c with alive := false } else c) = id c := by
        intro c hc
        rw [if_neg (halive c hc).2]
        rfl
      rw [List.map_congr_left this, List.map_id]
    have hfilter : conns.filter (fun c => c.alive) = conns :=
      List.filter_eq_self.mpr (fun c hc => (halive c hc).1)
    unfold acceptIteration
    dsimp only
    rw [hmap, hfilter, if_pos hlen]

/-- C7: the claim is right and the code is wrong.  `ProxyTunnel.start`
creates workers as plain `threading.Thread` (line 8 imports `Thread`;
`KillableThread` is never imported by proxy_tunnel.py), but
`ProxyTunnel.close` calls `connection.thread.kill()` (line 225) whenever
a worker is still alive.  A plain `Thread` has no `kill` attribute, so
`close()` raises `AttributeError` instead of cancelling the worker and
closing the listener; with a `KillableThread` worker (the evident
intent, defined in killable_thread.py) the same loop completes and
returns the entries with both sockets closed. -/
theorem c7_close_raises_attribute_error :
    tunnelClose [{ localOpen := true, remoteOpen := true,
                   thread := spawnedWorkerThread true }]
      = .error .attributeError
    ∧ tunnelClose [{ localOpen := true, remoteOpen := true,
                     thread := .killable true false }]
      = .ok [{ localOpen := false, remoteOpen := false, thread := .killable true false }]
    ∧ tunnelClose [{ localOpen := true, remoteOpen := true,
                     thread := spawnedWorkerThread false }]
      = .ok [{ localOpen := false, remoteOpen := false,
               thread := spawnedWorkerThread false }] := by
  refine ⟨rfl, rfl, rfl⟩

/-- C8 counterexample: the claim fails for `__str__`.  For the proxy
`Proxy("h", "1", "u", "secret")` the `str` rendering is
`"u:secret@h:1"`, which contains the raw password. -/
theorem c8_counterexample :
    (Proxy.mk "h" "1" "u" "secret" "").password ≠ ""
    ∧ Proxy.strStr (Proxy.mk "h" "1" "u" "secret" "") = "u:secret@h:1"
    ∧ (Proxy.mk "h" "1" "u" "secret" "").password.data
        <:+: (Proxy.strStr (Proxy.mk "h" "1" "u" "secret" "")).data := by
  refine ⟨by decide, by decide, by decide⟩

/-- C8 amended: only `__repr__` masks the password — its output is
independent of the password value (any non-empty password yields the
identical string, with the literal `****` in place of the credential) —
while `__str__` deliberately interpolates the raw password between the
username and the `@`. -/
theorem c8_repr_masks_str_reveals (p : Proxy) (q : String)
    (hp : p.password ≠ "") (hq : q ≠ "") (hu : p.username ≠ "") :
    Proxy.reprStr { p with password := q } = Proxy.reprStr p
    ∧ Proxy.strStr p = p.username ++ ":" ++ p.password ++ "@" ++ p.host ++ ":" ++ p.port := by
  constructor
  · unfold Proxy.reprStr
    simp [hu, hp, hq]
  · unfold Proxy.strStr
    rw [if_pos (by simp [hu, hp])]

/-! ### Witnesses: each hypothesis-bearing claim theorem applied at a
concrete input -/

theorem c1_policy_gate_witness :
    tunnel_data { is_auth := false, localOpen := true, remoteOpen := true }
        (some "Basic dTpw")
        [RecvEvent.chunk (strBytes "HELLO"), RecvEvent.timeout] [SendEvent.accepted 9]
      = .ok { conn := { is_auth := false, localOpen := false, remoteOpen := false },
              ended := true, sent := [] } :=
  c1_policy_gate { is_auth := false, localOpen := true, remoteOpen := true } "Basic dTpw"
    [RecvEvent.chunk (strBytes "HELLO"), RecvEvent.timeout] [SendEvent.accepted 9]
    (strBytes "HELLO") rfl (by decide) rfl (by decide) (by decide)

theorem c2_add_auth_header_witness :
    add_auth_header (strBytes "GET / HTTP/1.1\r\nHost: x\r\n\r\n") "Basic dTpw"
      = some (strBytes "GET / HTTP/1.1\r\nHost: x\r\nProxy-Authorization: Basic dTpw\r\n\r\n")
    ∧ splitSeq crlf (joinSep crlf (strBytes "GET / HTTP/1.1"
        :: ([strBytes "Host: x"] ++ [authHeaderBytes "Basic dTpw"])))
      = strBytes "GET / HTTP/1.1" :: ([strBytes "Host: x"] ++ [authHeaderBytes "Basic dTpw"]) := by
  have h := c2_add_auth_header (strBytes "GET / HTTP/1.1\r\nHost: x\r\n\r\n") "Basic dTpw"
    (strBytes "GET / HTTP/1.1\r\nHost: x") [] (by decide)
  constructor
  · have hB := h.2.1 (by decide)
    rw [hB]
    decide
  · have hC := h.2.2 (strBytes "GET / HTTP/1.1") [strBytes "Host: x"] (by decide) (by decide)
      (by decide) (by decide) (by decide) _ (h.2.1 (by decide))
    exact hC.2.1

theorem c3_proxy_authorization_witness :
    (ProxyTunnel.init (Proxy.mk "127.0.0.1" "12345" "" "" "")
        (Proxy.mk "h" "1" "u" "p" "")).proxy_authorization
      = some "Basic dTpw" := by
  have h := c3_proxy_authorization (Proxy.mk "127.0.0.1" "12345" "" "" "")
    (Proxy.mk "h" "1" "u" "p" "") (by decide)
  have h2 := (h.2 (by decide) (by decide)).1
  rw [h2]
  decide

theorem c4_no_407_check_witness :
    tunnel_data { is_auth := true, localOpen := true, remoteOpen := true } none
        [RecvEvent.chunk (strBytes "HTTP/1.1 407 Proxy Authentication Required\r\n\r\n"),
         RecvEvent.timeout]
        [SendEvent.accepted 1000]
      = .ok { conn := { is_auth := true, localOpen := true, remoteOpen := true },
              ended := false,
              sent := strBytes "HTTP/1.1 407 Proxy Authentication Required\r\n\r\n" } :=
  c4_no_407_check { is_auth := true, localOpen := true, remoteOpen := true }
    [RecvEvent.chunk (strBytes "HTTP/1.1 407 Proxy Authentication Required\r\n\r\n"),
     RecvEvent.timeout]
    [SendEvent.accepted 1000]
    (strBytes "HTTP/1.1 407 Proxy Authentication Required\r\n\r\n")
    rfl rfl (by decide) (by decide) (by decide)

theorem c5_zero_byte_closure_witness :
    recv_data [RecvEvent.chunk [72, 73], RecvEvent.timeout] = .ok ([72, 73] : Bytes)
    ∧ tunnel_data { is_auth := true, localOpen := true, remoteOpen := true } none
        [RecvEvent.chunk [], RecvEvent.timeout] [SendEvent.accepted 5]
      = .ok { conn := { is_auth := true, localOpen := false, remoteOpen := false },
              ended := true, sent := [] } :=
  ⟨c5_zero_byte_closure.2.2 [72, 73] [] (by decide),
   c5_zero_byte_closure.2.1 { is_auth := true, localOpen := true, remoteOpen := true }
     none [RecvEvent.timeout] [SendEvent.accepted 5]⟩

theorem c6_session_table_witness :
    (acceptRun 1 [[], [], [0]]).length ≤ 1
    ∧ acceptIteration 1 [] [{ thread_id := 0, alive := true }]
      = ([{ thread_id := 0, alive := true }], false) :=
  ⟨(c6_session_table 1).1 [[], [], [0]],
   (c6_session_table 1).2.2 [] [{ thread_id := 0, alive := true }] (by decide) (by decide)⟩

theorem c8_repr_masks_str_reveals_witness :
    Proxy.reprStr (Proxy.mk "h" "1" "u" "zzz" "")
      = Proxy.reprStr (Proxy.mk "h" "1" "u" "secret" "")
    ∧ Proxy.strStr (Proxy.mk "h" "1" "u" "secret" "")
      = "u" ++ ":" ++ "secret" ++ "@" ++ "h" ++ ":" ++ "1" :=
  c8_repr_masks_str_reveals (Proxy.mk "h" "1" "u" "secret" "") "zzz"
    (by decide) (by decide) (by decide)

theorem c9_gate_blind_witness :
    tunnel_data { is_auth := false, localOpen := true, remoteOpen := true } none
        [RecvEvent.chunk [72], RecvEvent.timeout] [SendEvent.accepted 3]
      = .ok { conn := { is_auth := false, localOpen := false, remoteOpen := false },
              ended := true, sent := [] }
    ∧ handleClientStep none { is_auth := false, localOpen := true, remoteOpen := true }
        false true [] [] [RecvEvent.chunk [72], RecvEvent.timeout] [SendEvent.accepted 3]
      = .ok ({ is_auth := false, localOpen := false, remoteOpen := false }, true, [], []) :=
  ⟨(c9_gate_blind { is_auth := false, localOpen := true, remoteOpen := true } rfl).1
      [RecvEvent.chunk [72], RecvEvent.timeout] [SendEvent.accepted 3],
   (c9_gate_blind { is_auth := false, localOpen := true, remoteOpen := true } rfl).2.2
      false true [] [] [RecvEvent.chunk [72], RecvEvent.timeout] [SendEvent.accepted 3] rfl⟩

theorem c10_missing_separator_raises_witness :
    tunnel_data { is_auth := false, localOpen := true, remoteOpen := true }
        (some "Basic dTpw")
        [RecvEvent.chunk (strBytes "GET / HTTP/1.1\r\nHost: x"), RecvEvent.timeout]
        [SendEvent.accepted 99]
      = .error (.valueError, { is_auth := false, localOpen := true, remoteOpen := true }) :=
  c10_missing_separator_raises { is_auth := false, localOpen := true, remoteOpen := true }
    "Basic dTpw"
    [RecvEvent.chunk (strBytes "GET / HTTP/1.1\r\nHost: x"), RecvEvent.timeout]
    [SendEvent.accepted 99]
    (strBytes "GET / HTTP/1.1\r\nHost: x") (by decide) rfl (by decide) (by decide)
